import Mathlib

/-!
# Verification of `pogr_tracing_rs` against its specification

A shallow embedding of the `pogr_tracing_rs` crate (`src/lib.rs`): the
`JsonVisitor` field collector, the `serialize_metadata` function, the
`PogrAppender` session client (`new` and `log`), and the `PogrLayer`
dispatch (`on_event`).

Modelling conventions:
* `serde_json::Value` is embedded as `Json`.  The `Array` constructor of
  `serde_json::Value` is never constructed anywhere in this crate (all
  stored values are scalars, all composite values are string-keyed
  objects), so it is omitted from the embedding.
* `serde_json::Number` is embedded as `JNumber`: `PosInt(u64)` /
  `NegInt(i64)` / finite `Float(f64)`.  A finite `f64` is represented by
  its exact numeric value, written as a scaled decimal `u / 10 ^ d`
  (every finite binary64 value is a dyadic rational and hence has a
  finite exact decimal expansion); the non-finite values (NaN, ±∞),
  which `serde_json` maps to `Value::Null`, are a separate marker.
  `serde_json`/`ryu` print a finite float as a decimal that re-parses to
  exactly the same value; the renderer here realises that contract by
  printing the exact decimal form.
* HTTP transports (`reqwest`) are oracles: functions from the concrete
  request the code builds to an abstract outcome (send failure /
  body-deserialization failure / a parsed response).
* `std::collections::HashMap` is modelled by an association list with
  insert-or-replace semantics (`mapInsert`); `serde_json::to_value` of a
  string-keyed map, which sorts the entries into a `BTreeMap`-backed
  `serde_json::Map`, is modelled by `serdeToValue` (key-sorting, and
  infallible on string-keyed maps, as in serde).  The places where the
  crate calls `serde_json::to_value` and handles a possible error are
  additionally parameterized over an arbitrary serializer outcome `tv`
  so that the error-fallback branches of the crate can be stated.
* Panics (`expect`, `panic!`) are an explicit `PanicOr` outcome.
* The `tokio::spawn` / `tokio::sync::Mutex` discipline of
  `PogrLayer::on_event` is modelled as a transition system (`DispatchSys`)
  whose steps are lock acquisition and the submit-then-release performed
  by one spawned dispatch task.
-/

/-! ## JSON values (`serde_json::Value` without the unused `Array` case) -/

/-- `serde_json::Number`.  `posInt` is the `PosInt(u64)` case, `negInt` the
`NegInt(i64)` case (only ever built with a negative value), `float` a finite
`f64` represented by its exact value `u / 10 ^ d`. -/
inductive JNumber : Type where
  | posInt (n : Nat)
  | negInt (i : Int)
  | float (u : Int) (d : Nat)
  deriving DecidableEq

/-- `serde_json::Value`, minus the `Array` constructor, which no code path of
this crate ever constructs. -/
inductive Json : Type where
  | null
  | bool (b : Bool)
  | num (n : JNumber)
  | str (s : String)
  | obj (kvs : List (String × Json))

/-- A `float` payload is in canonical scaled-decimal form: no trailing zero
fractional digit remains to be stripped.  Every finite `f64` has exactly one
such representation. -/
def JNumber.floatNormal (u : Int) (d : Nat) : Prop :=
  d = 0 ∨ u % 10 ≠ 0

instance : DecidablePred fun p : Int × Nat => JNumber.floatNormal p.1 p.2 := by
  intro p
  unfold JNumber.floatNormal
  infer_instance

/-! ## Decimal digits -/

/-- The decimal digit character for `n < 10`. -/
def digitChar : Nat → Char
  | 0 => '0' | 1 => '1' | 2 => '2' | 3 => '3' | 4 => '4'
  | 5 => '5' | 6 => '6' | 7 => '7' | 8 => '8' | _ => '9'

/-- Numeric value of a decimal digit character. -/
def digitVal (c : Char) : Nat := c.toNat - 48

/-- Is `c` a decimal digit `0`–`9`? -/
def isDigit (c : Char) : Bool := 48 ≤ c.toNat && c.toNat ≤ 57

/-- Decimal rendering of a natural number, most significant digit first. -/
def natDigits (n : Nat) : List Char :=
  if h : n < 10 then [digitChar n]
  else
    have : n / 10 < n := Nat.div_lt_self (by omega) (by omega)
    natDigits (n / 10) ++ [digitChar (n % 10)]

/-- Value of a digit string (most significant digit first). -/
def digitsToNat (ds : List Char) : Nat :=
  ds.foldl (fun acc c => acc * 10 + digitVal c) 0

/-- Split a character list into its maximal digit prefix and the rest. -/
def spanDigits : List Char → List Char × List Char
  | [] => ([], [])
  | c :: cs =>
    if isDigit c then
      let p := spanDigits cs
      (c :: p.1, p.2)
    else ([], c :: cs)

/-- The `d` fractional digits of `r / 10 ^ d` (`r < 10 ^ d`), most significant
first, including leading zeros. -/
def fracDigits : Nat → Nat → List Char
  | _, 0 => []
  | r, d + 1 => fracDigits (r / 10) d ++ [digitChar (r % 10)]

/-- Strip trailing zero fractional digits from a scaled decimal `u / 10 ^ d`,
producing the canonical `JNumber.float`. -/
def normFloat (u : Int) : Nat → JNumber
  | 0 => .float u 0
  | d + 1 => if u % 10 = 0 then normFloat (u / 10) d else .float u (d + 1)

/-- Lower-case hex digit character for `n < 16`. -/
def hexDigit : Nat → Char
  | 0 => '0' | 1 => '1' | 2 => '2' | 3 => '3' | 4 => '4'
  | 5 => '5' | 6 => '6' | 7 => '7' | 8 => '8' | 9 => '9'
  | 10 => 'a' | 11 => 'b' | 12 => 'c' | 13 => 'd' | 14 => 'e' | _ => 'f'

/-- Numeric value of a hex digit character (upper or lower case). -/
def hexVal (c : Char) : Option Nat :=
  if 48 ≤ c.toNat ∧ c.toNat ≤ 57 then some (c.toNat - 48)
  else if 97 ≤ c.toNat ∧ c.toNat ≤ 102 then some (c.toNat - 87)
  else if 65 ≤ c.toNat ∧ c.toNat ≤ 70 then some (c.toNat - 55)
  else none

/-! ## JSON string escaping (serde_json's escape table) -/

/-- serde_json's escape of one character inside a JSON string literal:
quote and backslash get a two-character escape, the five control characters
with short escapes get those, any other control character below `0x20` gets a
`\u00XX` escape, and everything else is emitted verbatim. -/
def escapeChar (c : Char) : List Char :=
  if c = '"' then ['\\', '"']
  else if c = '\\' then ['\\', '\\']
  else if c = '\x08' then ['\\', 'b']
  else if c = '\x09' then ['\\', 't']
  else if c = '\x0a' then ['\\', 'n']
  else if c = '\x0c' then ['\\', 'f']
  else if c = '\x0d' then ['\\', 'r']
  else if c.toNat < 32 then
    ['\\', 'u', '0', '0', hexDigit (c.toNat / 16), hexDigit (c.toNat % 16)]
  else [c]

/-- Escape every character of a string body. -/
def escapeList : List Char → List Char
  | [] => []
  | c :: cs => escapeChar c ++ escapeList cs

/-- Render a JSON string literal: opening quote, escaped body, closing
quote. -/
def renderString (s : String) : List Char :=
  '"' :: escapeList s.data ++ ['"']

/-! ## JSON rendering -/

/-- Render a `JNumber` the way serde_json does at the value level: integers
as plain decimals, floats always with a fractional part (so that re-parsing
yields a float again). -/
def renderNumber : JNumber → List Char
  | .posInt n => natDigits n
  | .negInt i => '-' :: natDigits i.natAbs
  | .float u d =>
    (if u < 0 then ['-'] else []) ++ natDigits (u.natAbs / 10 ^ d)
      ++ '.' :: (if d = 0 then ['0'] else fracDigits (u.natAbs % 10 ^ d) d)

mutual

/-- Render a `Json` value to its JSON text. -/
def renderJson : Json → List Char
  | .null => "null".data
  | .bool b => cond b "true".data "false".data
  | .num n => renderNumber n
  | .str s => renderString s
  | .obj kvs => '\x7b' :: renderMembers kvs ++ ['\x7d']

/-- Render the members of a JSON object, comma separated. -/
def renderMembers : List (String × Json) → List Char
  | [] => []
  | [(k, v)] => renderString k ++ ':' :: renderJson v
  | (k, v) :: p :: rest =>
    renderString k ++ ':' :: renderJson v ++ ',' :: renderMembers (p :: rest)

end

/-! ## JSON scalar parsing

The crate only ever stores scalar values into the visitor map, so the
round-trip property is about the scalar fragment of the JSON grammar; the
parser is written for exactly that fragment (`null`, booleans, numbers,
strings). -/

/-- Parse the body of a JSON string literal after the opening quote, undoing
`escapeChar`; returns the decoded characters and the input remaining after
the closing quote. -/
def parseStringBody : List Char → Option (List Char × List Char)
  | [] => none
  | c :: rest =>
    if c = '"' then some ([], rest)
    else if c = '\\' then
      match rest with
      | [] => none
      | e :: r =>
        if e = '"' then (parseStringBody r).map fun p => ('"' :: p.1, p.2)
        else if e = '\\' then (parseStringBody r).map fun p => ('\\' :: p.1, p.2)
        else if e = 'b' then (parseStringBody r).map fun p => ('\x08' :: p.1, p.2)
        else if e = 't' then (parseStringBody r).map fun p => ('\x09' :: p.1, p.2)
        else if e = 'n' then (parseStringBody r).map fun p => ('\x0a' :: p.1, p.2)
        else if e = 'f' then (parseStringBody r).map fun p => ('\x0c' :: p.1, p.2)
        else if e = 'r' then (parseStringBody r).map fun p => ('\x0d' :: p.1, p.2)
        else if e = 'u' then
          match r with
          | h1 :: h2 :: h3 :: h4 :: r2 =>
            match hexVal h1, hexVal h2, hexVal h3, hexVal h4 with
            | some a, some b, some c2, some d =>
              (parseStringBody r2).map fun p =>
                (Char.ofNat (a * 4096 + b * 256 + c2 * 16 + d) :: p.1, p.2)
            | _, _, _, _ => none
          | _ => none
        else none
    else if c.toNat < 32 then none
    else (parseStringBody rest).map fun p => (c :: p.1, p.2)

/-- Parse a JSON number: optional minus sign, integer digits, optional
fractional part.  A number without a fractional part parses to an integer
`JNumber` (`PosInt` when non-negative, `NegInt` when negative), one with a
fractional part parses to the canonical `float`. -/
def parseNumber (cs : List Char) : Option (JNumber × List Char) :=
  let neg : Bool := match cs with | c :: _ => c = '-' | [] => false
  let cs1 := if neg then cs.tail else cs
  let p := spanDigits cs1
  if p.1 = [] then none
  else
    match p.2 with
    | '.' :: cs2 =>
      let q := spanDigits cs2
      if q.1 = [] then none
      else
        let u : Int :=
          (if neg then -1 else 1) * (digitsToNat p.1 * 10 ^ q.1.length + digitsToNat q.1)
        some (normFloat u q.1.length, q.2)
    | rest =>
      if neg then
        if digitsToNat p.1 = 0 then some (.posInt 0, rest)
        else some (.negInt (-(digitsToNat p.1 : Int)), rest)
      else some (.posInt (digitsToNat p.1), rest)

/-- Parse one scalar JSON value (the fragment produced by the visitor). -/
def parseJsonScalar (cs : List Char) : Option (Json × List Char) :=
  match cs with
  | [] => none
  | c :: rest =>
    if c = 'n' then
      match rest with
      | 'u' :: 'l' :: 'l' :: r => some (.null, r)
      | _ => none
    else if c = 't' then
      match rest with
      | 'r' :: 'u' :: 'e' :: r => some (.bool true, r)
      | _ => none
    else if c = 'f' then
      match rest with
      | 'a' :: 'l' :: 's' :: 'e' :: r => some (.bool false, r)
      | _ => none
    else if c = '"' then (parseStringBody rest).map fun p => (.str ⟨p.1⟩, p.2)
    else (parseNumber (c :: rest)).map fun p => (.num p.1, p.2)

/-! ## Association-list maps

`std::collections::HashMap<String, Value>` is modelled by an association
list with insert-or-replace semantics; `mapLookup` is `HashMap::get`. -/

/-- `HashMap::insert`: replace the value of an existing key in place, else
append the new entry. -/
def mapInsert (k : String) (v : Json) : List (String × Json) → List (String × Json)
  | [] => [(k, v)]
  | (k2, v2) :: rest =>
    if k = k2 then (k, v) :: rest else (k2, v2) :: mapInsert k v rest

/-- `HashMap::get`. -/
def mapLookup (k : String) : List (String × Json) → Option Json
  | [] => none
  | (k2, v2) :: rest => if k = k2 then some v2 else mapLookup k rest

/-- Lexicographic order on character lists by scalar value (for strings,
this coincides with the byte-wise UTF-8 order a `BTreeMap<String, _>`
uses, since UTF-8 preserves codepoint order). -/
def charListLt : List Char → List Char → Bool
  | [], [] => false
  | [], _ :: _ => true
  | _ :: _, [] => false
  | a :: as, b :: bs =>
    Nat.blt a.toNat b.toNat || (Nat.beq a.toNat b.toNat && charListLt as bs)

/-- String order as `BTreeMap<String, _>` sees it. -/
def strLt (a b : String) : Bool := charListLt a.data b.data

/-- Insert an entry into a key-sorted association list (used to model the
`BTreeMap`-backed `serde_json::Map` that `serde_json::to_value` produces
from a `HashMap`). -/
def insertSortedByKey (p : String × Json) : List (String × Json) → List (String × Json)
  | [] => [p]
  | q :: rest => if strLt p.1 q.1 then p :: q :: rest else q :: insertSortedByKey p rest

/-- Sort an association list by key (insertion sort; stable, and on the
unique-key maps this crate builds it reproduces `BTreeMap` iteration
order). -/
def sortByKey (kvs : List (String × Json)) : List (String × Json) :=
  kvs.foldr insertSortedByKey []

/-- `serde_json::to_value` applied to a string-keyed map of `Value`s: it
collects the entries into a key-sorted `serde_json::Map`.  On such maps
serde's value serializer cannot fail (its only error is a non-string map
key), so the result is always `Ok`. -/
def serdeToValue (kvs : List (String × Json)) : Except Unit Json :=
  .ok (.obj (sortByKey kvs))

/-! ## `JsonVisitor` (src/lib.rs lines 131–241) -/

/-- The typed values the `tracing` `Visit` trait can hand to a visitor.
An `error` value is abstracted by its `Display` string (the only thing
`record_error` uses); a `debug` value by its `format!("{:?}", value)`
string (the only thing `record_debug` uses).  The `f64` argument of
`record_f64` is either non-finite (NaN, ±∞) or a finite value given by its
exact scaled decimal `u / 10 ^ d`. -/
inductive FieldValue : Type where
  | i64 (i : Int)
  | u64 (n : Nat)
  | f64nonfinite
  | f64 (u : Int) (d : Nat)
  | bool (b : Bool)
  | str (s : String)
  | error (display : String)
  | debug (s : String)

/-- `serde_json::json!(value)` on each primitive kind: numbers become
`Number`s (`i64` as `PosInt` when non-negative, `NegInt` otherwise; `u64`
as `PosInt`; finite `f64` as `Float`, non-finite `f64` as `Null` —
`Number::from_f64` returns `None` on non-finite input), booleans and
strings become the corresponding scalar, and error/debug values are stored
as their display/debug string. -/
def FieldValue.serialize : FieldValue → Json
  | .i64 i => if 0 ≤ i then .num (.posInt i.toNat) else .num (.negInt i)
  | .u64 n => .num (.posInt n)
  | .f64nonfinite => .null
  | .f64 u d => .num (.float u d)
  | .bool b => .bool b
  | .str s => .str s
  | .error s => .str s
  | .debug s => .str s

/-- `JsonVisitor`: holds the mapping of field names to their JSON values
for a single log event. -/
structure JsonVisitor : Type where
  fields : List (String × Json)

/-- `JsonVisitor::new`. -/
def JsonVisitor.new : JsonVisitor := { fields := [] }

/-- `Visit::record_i64` for `JsonVisitor`. -/
def JsonVisitor.record_i64 (v : JsonVisitor) (name : String) (value : Int) : JsonVisitor :=
  { fields := mapInsert name (FieldValue.serialize (.i64 value)) v.fields }

/-- `Visit::record_u64` for `JsonVisitor`. -/
def JsonVisitor.record_u64 (v : JsonVisitor) (name : String) (value : Nat) : JsonVisitor :=
  { fields := mapInsert name (FieldValue.serialize (.u64 value)) v.fields }

/-- `Visit::record_f64` for `JsonVisitor` (finite value case). -/
def JsonVisitor.record_f64 (v : JsonVisitor) (name : String) (u : Int) (d : Nat) : JsonVisitor :=
  { fields := mapInsert name (FieldValue.serialize (.f64 u d)) v.fields }

/-- `Visit::record_bool` for `JsonVisitor`. -/
def JsonVisitor.record_bool (v : JsonVisitor) (name : String) (value : Bool) : JsonVisitor :=
  { fields := mapInsert name (FieldValue.serialize (.bool value)) v.fields }

/-- `Visit::record_str` for `JsonVisitor`. -/
def JsonVisitor.record_str (v : JsonVisitor) (name : String) (value : String) : JsonVisitor :=
  { fields := mapInsert name (FieldValue.serialize (.str value)) v.fields }

/-- `Visit::record_error` for `JsonVisitor`: stores `value.to_string()`. -/
def JsonVisitor.record_error (v : JsonVisitor) (name : String) (display : String) : JsonVisitor :=
  { fields := mapInsert name (FieldValue.serialize (.error display)) v.fields }

/-- `Visit::record_debug` for `JsonVisitor`: stores `format!("{:?}", value)`. -/
def JsonVisitor.record_debug (v : JsonVisitor) (name : String) (s : String) : JsonVisitor :=
  { fields := mapInsert name (FieldValue.serialize (.debug s)) v.fields }

/-- Dispatch of one visited field to the matching `record_*` method (this is
what the `tracing` framework does per field when `event.record(&mut visitor)`
runs). -/
def JsonVisitor.visitField (v : JsonVisitor) (name : String) : FieldValue → JsonVisitor
  | .i64 i => v.record_i64 name i
  | .u64 n => v.record_u64 name n
  | .f64nonfinite => { fields := mapInsert name (FieldValue.serialize .f64nonfinite) v.fields }
  | .f64 u d => v.record_f64 name u d
  | .bool b => v.record_bool name b
  | .str s => v.record_str name s
  | .error s => v.record_error name s
  | .debug s => v.record_debug name s

/-- `event.record(&mut visitor)`: visit every field of the event in order. -/
def JsonVisitor.recordAll (v : JsonVisitor) : List (String × FieldValue) → JsonVisitor
  | [] => v
  | (name, fv) :: rest => (v.visitField name fv).recordAll rest

/-! ## Event metadata and `serialize_metadata` (src/lib.rs lines 363–374) -/

/-- `tracing::Level`. -/
inductive Level : Type where
  | trace | debug | info | warn | error
  deriving DecidableEq, Fintype

/-- `format!("{:?}", level)`: the derived `Debug` rendering of
`tracing_core::metadata::Level`, a tuple struct around the `LevelInner`
enum. -/
def Level.debugFmt : Level → String
  | .trace => "Level(Trace)"
  | .debug => "Level(Debug)"
  | .info => "Level(Info)"
  | .warn => "Level(Warn)"
  | .error => "Level(Error)"

/-- `level.to_string()`: the `Display` rendering of `tracing::Level`. -/
def Level.display : Level → String
  | .trace => "TRACE"
  | .debug => "DEBUG"
  | .info => "INFO"
  | .warn => "WARN"
  | .error => "ERROR"

/-- The event provenance bundle `tracing::Metadata`: the parts
`serialize_metadata` and `on_event` read.  `file` and `line` are optional
in `tracing` (`Option<&str>` / `Option<u32>`). -/
structure Metadata : Type where
  name : String
  target : String
  level : Level
  file : Option String
  line : Option Nat

/-- `metadata.file().map(Value::from).unwrap_or(Value::Null)`. -/
def fileValue : Option String → Json
  | some f => .str f
  | none => .null

/-- `metadata.line().map(|line| Value::from(line as i64)).unwrap_or(Value::Null)`:
a `u32` widened to `i64` is non-negative, so `Value::from` yields a
`PosInt` number. -/
def lineValue : Option Nat → Json
  | some n => .num (.posInt n)
  | none => .null

/-- The `HashMap<&str, Value>` that `serialize_metadata` fills: the five
inserts, in source order. -/
def metadataEntries (m : Metadata) : List (String × Json) :=
  mapInsert "line" (lineValue m.line)
    (mapInsert "file" (fileValue m.file)
      (mapInsert "level" (.str m.level.debugFmt)
        (mapInsert "target" (.str m.target)
          (mapInsert "name" (.str m.name) []))))

/-- `serialize_metadata`, parameterized by the outcome `tv` of the
`serde_json::to_value` call so that the `unwrap_or_else(|_| Value::Null)`
fallback branch is part of the model; instantiating `tv := serdeToValue`
gives the behavior under serde's actual (infallible on these maps)
serializer. -/
def serialize_metadata (tv : List (String × Json) → Except Unit Json) (m : Metadata) : Json :=
  match tv (metadataEntries m) with
  | .ok v => v
  | .error _ => .null

/-! ## `PogrAppender` (src/lib.rs lines 248–471) -/

/-- Explicit panic outcome for functions the crate writes with
`expect`/`panic!`. -/
inductive PanicOr (α : Type) : Type where
  | panicked (msg : String)
  | ok (v : α)

/-- Outcome of one HTTP round trip as the crate observes it through
`reqwest`: the `send()` future fails, or `json::<T>()` fails to
deserialize the body, or a parsed response value of the expected shape. -/
inductive HttpResult (α : Type) : Type where
  | sendFailure
  | deserFailure
  | ok (resp : α)

/-- `InitPayload`. -/
structure InitPayload : Type where
  session_id : String

/-- `InitResponse`. -/
structure InitResponse : Type where
  success : Bool
  payload : InitPayload

/-- `LogPayload`. -/
structure LogPayload : Type where
  log_id : String

/-- `LogResponse`. -/
structure LogResponse : Type where
  success : Bool
  payload : LogPayload

/-- `LogRequest` (the `LogRecord` of the spec).  `type` is the raw
identifier `r#type` of the source. -/
structure LogRequest : Type where
  service : String
  environment : String
  severity : String
  type : String
  log : String
  data : Json
  tags : Json

/-- `PogrAppender` minus the `reqwest::Client` handle (an opaque resource
with no observable state of its own; every request it performs is routed
through the transport oracle). -/
structure PogrAppender : Type where
  service_name : String
  environment : String
  service_type : String
  session_id : String
  logs_endpoint : String
  init_endpoint : String

/-- The process environment variables `PogrAppender::new` reads, plus the
file name of the current executable (`env::current_exe()` fallback for
`SERVICE_NAME`). -/
structure Env : Type where
  service_name : Option String
  environment : Option String
  service_type : Option String
  pogr_init_endpoint : Option String
  pogr_logs_endpoint : Option String
  pogr_access : Option String
  pogr_secret : Option String
  current_exe_file_name : String

/-- The hardcoded default init endpoint URL. -/
def defaultInitEndpoint : String := "https://api.pogr.io/v1/intake/init"

/-- The hardcoded default logs endpoint URL. -/
def defaultLogsEndpoint : String := "https://api.pogr.io/v1/intake/logs"

/-- The POST request `PogrAppender::new` sends to the init endpoint: the
URL and the three headers (the body is the empty `InitRequest`). -/
structure InitHttpRequest : Type where
  url : String
  pogr_access : String
  pogr_secret : String
  content_type : String

/-- The POST request `PogrAppender::log` sends to the logs endpoint. -/
structure LogHttpRequest : Type where
  url : String
  intake_session_id : String
  content_type : String
  body : LogRequest

/-- The URL `PogrAppender::new` resolves for the init endpoint:
explicit argument, else `POGR_INIT_ENDPOINT`, else the hardcoded
default (`init_endpoint.or_else(..).unwrap_or_else(..)`). -/
def resolveInitEndpoint (env : Env) (init_endpoint : Option String) : String :=
  (init_endpoint.orElse fun _ => env.pogr_init_endpoint).getD defaultInitEndpoint

/-- The URL `PogrAppender::new` resolves for the logs endpoint:
explicit argument, else `POGR_LOGS_ENDPOINT`, else the hardcoded
default. -/
def resolveLogsEndpoint (env : Env) (logs_endpoint : Option String) : String :=
  (logs_endpoint.orElse fun _ => env.pogr_logs_endpoint).getD defaultLogsEndpoint

/-- The handshake POST that `PogrAppender::new` sends, given the resolved
init endpoint URL and the two credential secrets. -/
def initRequest (env : Env) (init_endpoint : Option String)
    (pogr_client pogr_build : String) : InitHttpRequest :=
  { url := resolveInitEndpoint env init_endpoint
    pogr_access := pogr_client
    pogr_secret := pogr_build
    content_type := "application/json" }

/-- `PogrAppender::new`.  `transport` is the oracle for the single
`client.post(..).send()/.json()` round trip; the second component of the
result is the list of init requests actually issued (so that "no retry"
is expressible).  Mirrors src/lib.rs lines 394–435: resolve the service
identity and the two endpoint URLs, `expect` the two credential
variables, send the handshake, `expect` the send and the deserialization,
then branch on `success`. -/
def PogrAppender.new (env : Env) (transport : InitHttpRequest → HttpResult InitResponse)
    (init_endpoint logs_endpoint : Option String) :
    PanicOr PogrAppender × List InitHttpRequest :=
  let service_name := env.service_name.getD env.current_exe_file_name
  let environment := env.environment.getD "development"
  let service_type := env.service_type.getD "service"
  let init_endpoint_url := resolveInitEndpoint env init_endpoint
  let logs_endpoint_url := resolveLogsEndpoint env logs_endpoint
  match env.pogr_access with
  | none => (.panicked "POGR_ACCESS must be set", [])
  | some pogr_client =>
    match env.pogr_secret with
    | none => (.panicked "POGR_SECRET must be set", [])
    | some pogr_build =>
      let req : InitHttpRequest := initRequest env init_endpoint pogr_client pogr_build
      match transport req with
      | .sendFailure => (.panicked "Failed to send init request", [req])
      | .deserFailure => (.panicked "Failed to deserialize init response", [req])
      | .ok init_response =>
        if init_response.success then
          (.ok
            { service_name := service_name
              environment := environment
              service_type := service_type
              session_id := init_response.payload.session_id
              logs_endpoint := logs_endpoint_url
              init_endpoint := init_endpoint_url },
            [req])
        else (.panicked "Failed to initialize POGR session", [req])

/-- The derived `Debug` rendering of `LogResponse` used by the
`error!("Failed to log to POGR: {:?}", response)` diagnostic.  (The
`Debug` escaping of special characters inside `log_id` is elided: the
claims only depend on the diagnostic carrying the failed response.) -/
def LogResponse.debugFmt (r : LogResponse) : String :=
  "LogResponse \x7b success: " ++ (if r.success then "true" else "false")
    ++ ", payload: LogPayload \x7b log_id: \"" ++ r.payload.log_id ++ "\" \x7d \x7d"

/-- What `PogrAppender::log` does after the HTTP round trip: panics (of
the calling task) on send/deserialization failure, otherwise returns
normally, emitting the `error!` diagnostic when `success` is false. -/
inductive LogOutcome : Type where
  | panicked (msg : String)
  | returned (diagnostic : Option String)

/-- `PogrAppender::log` (src/lib.rs lines 451–470): build the POST request
against `self.logs_endpoint` with the `INTAKE_SESSION_ID` header, send it,
`expect` the send and the deserialization, and log (not escalate) a
`success = false` response.  Returns the request that was sent together
with the outcome. -/
def PogrAppender.log (a : PogrAppender)
    (transport : LogHttpRequest → HttpResult LogResponse)
    (log_request : LogRequest) : LogHttpRequest × LogOutcome :=
  let req : LogHttpRequest :=
    { url := a.logs_endpoint
      intake_session_id := a.session_id
      content_type := "application/json"
      body := log_request }
  (req,
    match transport req with
    | .sendFailure => .panicked "Failed to send log request"
    | .deserFailure => .panicked "Failed to deserialize log response"
    | .ok response =>
      .returned
        (if response.success then none
         else some ("Failed to log to POGR: " ++ response.debugFmt)))

/-! ## `PogrLayer::on_event` (src/lib.rs lines 536–558) -/

/-- One captured `tracing` event: its metadata and its typed fields, in
visit order. -/
structure CapturedEvent : Type where
  metadata : Metadata
  fields : List (String × FieldValue)

/-- The data `on_event` captures synchronously on the calling thread
before spawning the dispatch task: the (immutable, `'static`) metadata
handle and the visitor's collected field map. -/
def onEventCapture (ev : CapturedEvent) : Metadata × List (String × Json) :=
  (ev.metadata, (JsonVisitor.new.recordAll ev.fields).fields)

/-- The `LogRequest` the spawned dispatch task constructs from the
captured data and the locked appender, parameterized (like
`serialize_metadata`) by the `serde_json::to_value` outcome `tv` so that
the `unwrap_or_else(|_| json!({}))` fallback on `tags` is part of the
model. -/
def onEventRecord (tv : List (String × Json) → Except Unit Json)
    (a : PogrAppender) (ev : CapturedEvent) : LogRequest :=
  let captured := onEventCapture ev
  { service := a.service_name
    environment := a.environment
    severity := captured.1.level.display
    type := a.service_type
    log := "rust tracing log captured"
    data := serialize_metadata tv captured.1
    tags :=
      match tv captured.2 with
      | .ok v => v
      | .error _ => .obj [] }

/-- `on_event` spawns exactly this list of dispatch tasks per event: one
task, which will lock the shared appender, build `onEventRecord`, and
submit it. -/
def onEventTasks (ev : CapturedEvent) : List CapturedEvent := [ev]

/-! ## The dispatch transition system (C4/C5)

`on_event` is called once per event; each call spawns (`tokio::spawn`)
one independent dispatch task over the shared `Arc<Mutex<PogrAppender>>`.
The body of task `i` is:

  `let appender = appender.lock().await;` — acquire the mutex (possible
  only when no other task holds it);
  build `onEventRecord` and `appender.log(record).await` — the one HTTP
  submission, performed while the lock is held;
  end of scope — the guard drops, releasing the mutex.

`DispatchStep` has exactly those two observable transitions per task:
`acquire`, and `submitRelease` (the submit happens while the lock is
held, and the guard drops when the task body ends).  `history` records,
in order, each submission made against the logs endpoint: the id of the
submitting task and the record it submitted. -/

/-- Progress of one dispatch task: not yet holding the lock / holding the
lock (its HTTP submission is in flight) / finished. -/
inductive TaskPc : Type where
  | start | locked | done
  deriving DecidableEq

/-- State of `n` spawned dispatch tasks sharing one
`Arc<Mutex<PogrAppender>>`. -/
structure DispatchState (n : Nat) : Type where
  pc : Fin n → TaskPc
  holder : Option (Fin n)
  history : List (Fin n × LogRequest)

/-- The initial state: every task spawned, none scheduled yet, no
submission made. -/
def DispatchState.init (n : Nat) : DispatchState n :=
  { pc := fun _ => .start, holder := none, history := [] }

/-- One scheduler step of the dispatch tasks.  `records i` is the
`LogRequest` task `i` builds and submits (a function of task `i`'s
captured event only). -/
inductive DispatchStep (n : Nat) (records : Fin n → LogRequest) :
    DispatchState n → DispatchState n → Prop where
  | acquire (s : DispatchState n) (i : Fin n)
      (hpc : s.pc i = .start) (hfree : s.holder = none) :
      DispatchStep n records s
        { pc := Function.update s.pc i .locked
          holder := some i
          history := s.history }
  | submitRelease (s : DispatchState n) (i : Fin n)
      (hpc : s.pc i = .locked) (hold : s.holder = some i) :
      DispatchStep n records s
        { pc := Function.update s.pc i .done
          holder := none
          history := s.history ++ [(i, records i)] }

/-- Reachability from the initial state. -/
def DispatchReachable (n : Nat) (records : Fin n → LogRequest)
    (s : DispatchState n) : Prop :=
  Relation.ReflTransGen (DispatchStep n records) (DispatchState.init n) s

/-! # Theorems -/

/-! ## Association-list map lemmas -/

theorem mapLookup_mapInsert_self (k : String) (v : Json) (m : List (String × Json)) :
    mapLookup k (mapInsert k v m) = some v := by
  induction m with
  | nil => simp [mapInsert, mapLookup]
  | cons hd tl ih =>
    obtain ⟨k2, v2⟩ := hd
    by_cases h : k = k2 <;> simp [mapInsert, mapLookup, h, ih]

theorem mapLookup_mapInsert_other (k k2 : String) (v : Json) (m : List (String × Json))
    (h : k2 ≠ k) : mapLookup k2 (mapInsert k v m) = mapLookup k2 m := by
  induction m with
  | nil => simp [mapInsert, mapLookup, h]
  | cons hd tl ih =>
    obtain ⟨k3, v3⟩ := hd
    by_cases h2 : k = k3
    · subst h2
      simp [mapInsert, mapLookup, h]
    · by_cases h3 : k2 = k3 <;> simp [mapInsert, mapLookup, h2, h3, ih]

theorem mapInsert_keys_subset (k : String) (v : Json) (m : List (String × Json)) :
    ∀ k2 ∈ (mapInsert k v m).map Prod.fst, k2 = k ∨ k2 ∈ m.map Prod.fst := by
  induction m with
  | nil => simp [mapInsert]
  | cons hd tl ih =>
    obtain ⟨k3, v3⟩ := hd
    by_cases h : k = k3
    · subst h
      simp [mapInsert]
    · intro k2 hk2
      simp only [mapInsert, if_neg h, List.map_cons, List.mem_cons] at hk2
      rcases hk2 with h1 | h1
      · simp [h1]
      · rcases ih k2 h1 with h2 | h2
        · tauto
        · simp [h2]

theorem mapInsert_keys_nodup (k : String) (v : Json) (m : List (String × Json))
    (h : (m.map Prod.fst).Nodup) : ((mapInsert k v m).map Prod.fst).Nodup := by
  induction m with
  | nil => simp [mapInsert]
  | cons hd tl ih =>
    obtain ⟨k3, v3⟩ := hd
    simp only [List.map_cons, List.nodup_cons] at h
    by_cases h2 : k = k3
    · subst h2
      simpa [mapInsert] using h
    · simp only [mapInsert, if_neg h2, List.map_cons, List.nodup_cons]
      refine ⟨fun hmem => ?_, ih h.2⟩
      rcases mapInsert_keys_subset k v tl k3 hmem with h3 | h3
      · exact h2 h3.symm
      · exact h.1 h3

/-! ## The visitor stores `mapInsert name (serialize value)` -/

theorem visitField_fields (vis : JsonVisitor) (name : String) (fv : FieldValue) :
    (vis.visitField name fv).fields = mapInsert name fv.serialize vis.fields := by
  cases fv <;>
    rfl

/-- **C7.** For every visited field of every primitive kind, `JsonVisitor`
stores `fields[name] = serialize(value)` into its mapping: after the visit,
looking up `name` yields exactly the serialized value, every other key is
untouched, key-uniqueness is preserved (so a repeated name within one event
is last-write-wins, stated explicitly as the fourth conjunct), error values
are stored as their display string, debug values as their debug-format
string, and the serialization is total over all field kinds (the statement
quantifies over every constructor of `FieldValue` and every visit is defined,
producing a stored value). -/
theorem visitor_stores_serialized_field (vis : JsonVisitor) (name : String) (fv : FieldValue) :
    mapLookup name (vis.visitField name fv).fields = some fv.serialize ∧
    (∀ k, k ≠ name → mapLookup k (vis.visitField name fv).fields = mapLookup k vis.fields) ∧
    ((vis.fields.map Prod.fst).Nodup → (((vis.visitField name fv).fields.map Prod.fst)).Nodup) ∧
    (∀ fv0, mapLookup name ((vis.visitField name fv0).visitField name fv).fields
      = some fv.serialize) ∧
    (∀ s, FieldValue.serialize (.error s) = .str s) ∧
    (∀ s, FieldValue.serialize (.debug s) = .str s) := by
  refine ⟨?_, ?_, ?_, ?_, fun _ => rfl, fun _ => rfl⟩
  · rw [visitField_fields]
    exact mapLookup_mapInsert_self name fv.serialize vis.fields
  · intro k hk
    rw [visitField_fields]
    exact mapLookup_mapInsert_other name k fv.serialize vis.fields hk
  · intro h
    rw [visitField_fields]
    exact mapInsert_keys_nodup name fv.serialize vis.fields h
  · intro fv0
    rw [visitField_fields]
    exact mapLookup_mapInsert_self name fv.serialize _

/-- Witness for C7 at a concrete input: a visitor that already holds a
`"message"` field, visited with an error field named `"err"`; all
hypothesis-bearing conjuncts are discharged at concrete keys. -/
theorem visitor_stores_serialized_field_witness :
    mapLookup "err" ((JsonVisitor.new.record_str "message" "hi").visitField "err"
        (.error "boom")).fields = some (.str "boom") ∧
    mapLookup "message" ((JsonVisitor.new.record_str "message" "hi").visitField "err"
        (.error "boom")).fields = some (.str "hi") ∧
    ((((JsonVisitor.new.record_str "message" "hi").visitField "err"
        (.error "boom")).fields.map Prod.fst)).Nodup ∧
    mapLookup "err" (((JsonVisitor.new.record_str "message" "hi").visitField "err"
        (.debug "first")).visitField "err" (.error "boom")).fields = some (.str "boom") := by
  have h := visitor_stores_serialized_field (JsonVisitor.new.record_str "message" "hi")
    "err" (.error "boom")
  refine ⟨h.1, ?_, ?_, h.2.2.2.1 (.debug "first")⟩
  · rw [h.2.1 "message" (by decide)]
    rfl
  · exact h.2.2.1 (by decide)

/-- **C6.** `serialize_metadata` (under serde's actual, infallible
serializer for string-keyed maps) returns an object with exactly the keys
`file`, `level`, `line`, `name`, `target`; `name`, `target` and `level` are
strings; `level` is the canonical stringified severity (the `Debug`
rendering of the level, an injective and never-empty function of the
severity alone, hence always present and non-null); `file` is the source
file string or null when absent, `line` the source line integer or null
when absent; the function is total: this equation holds for every metadata
bundle. -/
theorem serialize_metadata_shape (m : Metadata) :
    serialize_metadata serdeToValue m =
      .obj [("file", fileValue m.file),
            ("level", .str m.level.debugFmt),
            ("line", lineValue m.line),
            ("name", .str m.name),
            ("target", .str m.target)] ∧
    (∀ f, fileValue (some f) = .str f) ∧ fileValue none = .null ∧
    (∀ n, lineValue (some n) = .num (.posInt n)) ∧ lineValue none = .null ∧
    Function.Injective Level.debugFmt ∧
    (∀ l : Level, l.debugFmt ≠ "") := by
  refine ⟨?_, fun _ => rfl, rfl, fun _ => rfl, rfl, by decide, by decide⟩
  rfl

/-- Witness for C6 at a concrete metadata bundle (file and line present)
and at one with both absent. -/
theorem serialize_metadata_shape_witness :
    serialize_metadata serdeToValue
        { name := "event src/main.rs:10", target := "app", level := .info,
          file := some "src/main.rs", line := some 10 } =
      .obj [("file", .str "src/main.rs"),
            ("level", .str "Level(Info)"),
            ("line", .num (.posInt 10)),
            ("name", .str "event src/main.rs:10"),
            ("target", .str "app")] ∧
    serialize_metadata serdeToValue
        { name := "e", target := "t", level := .warn, file := none, line := none } =
      .obj [("file", .null),
            ("level", .str "Level(Warn)"),
            ("line", .null),
            ("name", .str "e"),
            ("target", .str "t")] ∧
    Level.debugFmt .info ≠ "" := by
  refine ⟨?_, ?_, ?_⟩
  · exact (serialize_metadata_shape _).1
  · exact (serialize_metadata_shape _).1
  · exact (serialize_metadata_shape
      { name := "e", target := "t", level := .warn, file := none, line := none }).2.2.2.2.2.2 .info

/-! ## Claims about `PogrAppender::log` -/

/-- **C1.** If the logs endpoint answers the submitted request with a
well-formed response (one that deserializes to a `LogResponse`) whose
`success` field is false, then `PogrAppender::log` returns normally to its
caller — the outcome is `returned`, not `panicked` — and the
`error!` diagnostic reporting the failed response is emitted. -/
theorem log_success_false_returns_normally_with_diagnostic
    (a : PogrAppender) (transport : LogHttpRequest → HttpResult LogResponse)
    (lr : LogRequest) (resp : LogResponse)
    (hresp : transport (a.log transport lr).1 = .ok resp)
    (hfail : resp.success = false) :
    (a.log transport lr).2 =
      .returned (some ("Failed to log to POGR: " ++ resp.debugFmt)) := by
  unfold PogrAppender.log at hresp ⊢
  simp only at hresp
  simp only [hresp, hfail]
  simp

/-- Witness for C1: a concrete appender, transport and record; the mocked
logs endpoint answers `{success: false, payload: {log_id: ""}}`. -/
theorem log_success_false_returns_normally_with_diagnostic_witness :
    (PogrAppender.log
      { service_name := "svc", environment := "testing", service_type := "test",
        session_id := "test_session_id", logs_endpoint := "http://mock/v1/intake/logs",
        init_endpoint := "" }
      (fun _ => .ok { success := false, payload := { log_id := "" } })
      { service := "svc", environment := "testing", severity := "INFO", type := "test",
        log := "rust tracing log captured", data := .null, tags := .obj [] }).2
    = .returned (some ("Failed to log to POGR: "
        ++ LogResponse.debugFmt { success := false, payload := { log_id := "" } })) :=
  log_success_false_returns_normally_with_diagnostic _ _ _
    { success := false, payload := { log_id := "" } } rfl rfl

/-! ## Claims about `PogrAppender::new` -/

/-- **C2.** If the init endpoint's response has `success = false`, or the
transport send fails, or the response body cannot be deserialized,
`PogrAppender::new` panics (no appender value is produced) and no retry is
attempted: exactly one init request was issued.  The hypothesis `hfail`
covers all three failure cases at once (whenever the transport outcome is a
parsed response, its `success` is false; the send-failure and
deserialization-failure outcomes need no side condition). -/
theorem establish_failure_is_fatal_no_retry
    (env : Env) (transport : InitHttpRequest → HttpResult InitResponse)
    (i l : Option String) (acc sec : String)
    (hacc : env.pogr_access = some acc) (hsec : env.pogr_secret = some sec)
    (hfail : ∀ resp, transport (initRequest env i acc sec) = .ok resp →
      resp.success = false) :
    (∃ msg, (PogrAppender.new env transport i l).1 = .panicked msg) ∧
    (PogrAppender.new env transport i l).2 = [initRequest env i acc sec] := by
  unfold PogrAppender.new
  simp only [hacc, hsec]
  cases htr : transport (initRequest env i acc sec) with
  | sendFailure => exact ⟨⟨_, rfl⟩, rfl⟩
  | deserFailure => exact ⟨⟨_, rfl⟩, rfl⟩
  | ok resp =>
    have hs := hfail resp htr
    simp only [hs]
    exact ⟨⟨_, rfl⟩, rfl⟩

/-- Witness for C2: concrete environment and a mocked init endpoint
answering `{success: false, ...}`; construction panics after exactly one
request. -/
theorem establish_failure_is_fatal_no_retry_witness :
    (∃ msg, (PogrAppender.new
      { service_name := some "svc", environment := none, service_type := none,
        pogr_init_endpoint := none, pogr_logs_endpoint := none,
        pogr_access := some "test_access_key", pogr_secret := some "test_secret_key",
        current_exe_file_name := "app" }
      (fun _ => .ok { success := false, payload := { session_id := "" } })
      (some "http://mock/v1/intake/init") none).1 = .panicked msg) ∧
    (PogrAppender.new
      { service_name := some "svc", environment := none, service_type := none,
        pogr_init_endpoint := none, pogr_logs_endpoint := none,
        pogr_access := some "test_access_key", pogr_secret := some "test_secret_key",
        current_exe_file_name := "app" }
      (fun _ => .ok { success := false, payload := { session_id := "" } })
      (some "http://mock/v1/intake/init") none).2
      = [{ url := "http://mock/v1/intake/init", pogr_access := "test_access_key",
           pogr_secret := "test_secret_key", content_type := "application/json" }] :=
  establish_failure_is_fatal_no_retry _ _ (some "http://mock/v1/intake/init") none
    "test_access_key" "test_secret_key" rfl rfl (fun _ h => by
      cases h
      rfl)

/-- **C3.** If the init endpoint responds `{success: true,
payload: {session_id: s}}`, `PogrAppender::new` yields an appender whose
`session_id` is exactly `s`, and every subsequent submission through
`PogrAppender::log` carries that `s` as the `INTAKE_SESSION_ID` request
header, whatever the logs transport and the record. -/
theorem establish_success_session_id_carried_on_submissions
    (env : Env) (transport : InitHttpRequest → HttpResult InitResponse)
    (i l : Option String) (acc sec : String) (resp : InitResponse)
    (hacc : env.pogr_access = some acc) (hsec : env.pogr_secret = some sec)
    (htr : transport (initRequest env i acc sec) = .ok resp)
    (hsucc : resp.success = true) :
    ∃ a : PogrAppender, (PogrAppender.new env transport i l).1 = .ok a ∧
      a.session_id = resp.payload.session_id ∧
      ∀ (t2 : LogHttpRequest → HttpResult LogResponse) (lr : LogRequest),
        (a.log t2 lr).1.intake_session_id = resp.payload.session_id := by
  unfold PogrAppender.new
  simp only [hacc, hsec, htr, hsucc]
  exact ⟨_, rfl, rfl, fun _ _ => rfl⟩

/-- Witness for C3: the mocked init endpoint answers with session id
`"test_session_id"`. -/
theorem establish_success_session_id_carried_on_submissions_witness :
    ∃ a : PogrAppender,
      (PogrAppender.new
        { service_name := some "svc", environment := none, service_type := none,
          pogr_init_endpoint := none, pogr_logs_endpoint := none,
          pogr_access := some "test_access_key", pogr_secret := some "test_secret_key",
          current_exe_file_name := "app" }
        (fun _ => .ok { success := true, payload := { session_id := "test_session_id" } })
        (some "http://mock/v1/intake/init") none).1 = .ok a ∧
      a.session_id = "test_session_id" ∧
      ∀ (t2 : LogHttpRequest → HttpResult LogResponse) (lr : LogRequest),
        (a.log t2 lr).1.intake_session_id = "test_session_id" :=
  establish_success_session_id_carried_on_submissions _ _
    (some "http://mock/v1/intake/init") none "test_access_key" "test_secret_key"
    { success := true, payload := { session_id := "test_session_id" } } rfl rfl rfl rfl

/-- **C9.** Both endpoint URLs are resolved with the precedence "explicit
constructor argument, else environment variable, else hardcoded default",
the constructed appender carries exactly the resolved values, and they do
not change after construction: every subsequent submission posts to
exactly the resolved logs endpoint (there is no operation that modifies an
appender — `log` takes it immutably — so the resolved values are read-only
for the appender's lifetime). -/
theorem endpoint_resolution_precedence
    (env : Env) (transport : InitHttpRequest → HttpResult InitResponse)
    (i l : Option String) (a : PogrAppender)
    (hok : (PogrAppender.new env transport i l).1 = .ok a) :
    a.init_endpoint = resolveInitEndpoint env i ∧
    a.logs_endpoint = resolveLogsEndpoint env l ∧
    (∀ u, i = some u → resolveInitEndpoint env i = u) ∧
    (i = none → ∀ u, env.pogr_init_endpoint = some u → resolveInitEndpoint env i = u) ∧
    (i = none → env.pogr_init_endpoint = none →
      resolveInitEndpoint env i = defaultInitEndpoint) ∧
    (∀ u, l = some u → resolveLogsEndpoint env l = u) ∧
    (l = none → ∀ u, env.pogr_logs_endpoint = some u → resolveLogsEndpoint env l = u) ∧
    (l = none → env.pogr_logs_endpoint = none →
      resolveLogsEndpoint env l = defaultLogsEndpoint) ∧
    (∀ (t2 : LogHttpRequest → HttpResult LogResponse) (lr : LogRequest),
      (a.log t2 lr).1.url = a.logs_endpoint) := by
  unfold PogrAppender.new at hok
  have key : a.init_endpoint = resolveInitEndpoint env i ∧
      a.logs_endpoint = resolveLogsEndpoint env l := by
    cases hacc : env.pogr_access with
    | none => rw [hacc] at hok; simp at hok
    | some acc =>
      cases hsec : env.pogr_secret with
      | none => rw [hacc, hsec] at hok; simp at hok
      | some sec =>
        rw [hacc, hsec] at hok
        simp only at hok
        cases htr : transport (initRequest env i acc sec) with
        | sendFailure => rw [htr] at hok; simp at hok
        | deserFailure => rw [htr] at hok; simp at hok
        | ok resp =>
          rw [htr] at hok
          by_cases hs : resp.success = true
          · simp only [hs, if_true, PanicOr.ok.injEq] at hok
            rw [← hok]
            exact ⟨rfl, rfl⟩
          · simp [hs] at hok
  refine ⟨key.1, key.2, ?_, ?_, ?_, ?_, ?_, ?_, fun _ _ => rfl⟩
  · rintro u rfl
    rfl
  · rintro rfl u hu
    simp [resolveInitEndpoint, Option.orElse, hu]
  · rintro rfl hu
    simp [resolveInitEndpoint, Option.orElse, hu]
  · rintro u rfl
    rfl
  · rintro rfl u hu
    simp [resolveLogsEndpoint, Option.orElse, hu]
  · rintro rfl hu
    simp [resolveLogsEndpoint, Option.orElse, hu]

/-- Witness for C9: the explicit argument is given for the logs endpoint
only, the environment variable for the init endpoint only; the argument
wins where present, the environment variable where the argument is absent. -/
theorem endpoint_resolution_precedence_witness :
    ({ service_name := "svc", environment := "development", service_type := "service",
       session_id := "sid", logs_endpoint := "http://arg/logs",
       init_endpoint := "http://env/init" } : PogrAppender).init_endpoint
      = resolveInitEndpoint
          { service_name := some "svc", environment := none, service_type := none,
            pogr_init_endpoint := some "http://env/init", pogr_logs_endpoint := none,
            pogr_access := some "k", pogr_secret := some "s",
            current_exe_file_name := "app" } none ∧
    resolveInitEndpoint
        { service_name := some "svc", environment := none, service_type := none,
          pogr_init_endpoint := some "http://env/init", pogr_logs_endpoint := none,
          pogr_access := some "k", pogr_secret := some "s",
          current_exe_file_name := "app" } none = "http://env/init" ∧
    resolveLogsEndpoint
        { service_name := some "svc", environment := none, service_type := none,
          pogr_init_endpoint := some "http://env/init", pogr_logs_endpoint := none,
          pogr_access := some "k", pogr_secret := some "s",
          current_exe_file_name := "app" } (some "http://arg/logs") = "http://arg/logs" := by
  have h := endpoint_resolution_precedence
    { service_name := some "svc", environment := none, service_type := none,
      pogr_init_endpoint := some "http://env/init", pogr_logs_endpoint := none,
      pogr_access := some "k", pogr_secret := some "s",
      current_exe_file_name := "app" }
    (fun _ => .ok { success := true, payload := { session_id := "sid" } })
    none (some "http://arg/logs")
    { service_name := "svc", environment := "development", service_type := "service",
      session_id := "sid", logs_endpoint := "http://arg/logs",
      init_endpoint := "http://env/init" }
    rfl
  exact ⟨h.1, h.2.2.2.1 rfl "http://env/init" rfl, h.2.2.2.2.2.1 "http://arg/logs" rfl⟩

/-! ## Claim about the dispatch-task record construction (C10) -/

/-- **C10.** Constructing the `LogRequest` inside a dispatch task never
fails, whatever the outcome `tv` of the two `serde_json::to_value` calls:
the record is always the total function `onEventRecord` of the captured
data (first conjunct, an unconditional equation), `on_event` schedules
exactly one submission for it (second conjunct), and the error fallbacks
are as the code writes them: a failed serialization of the collected field
map makes `tags` the empty JSON object, a failed serialization of the
metadata map makes `data` JSON null. -/
theorem dispatch_record_always_produced
    (tv : List (String × Json) → Except Unit Json)
    (a : PogrAppender) (ev : CapturedEvent) :
    (onEventRecord tv a ev =
      { service := a.service_name
        environment := a.environment
        severity := ev.metadata.level.display
        type := a.service_type
        log := "rust tracing log captured"
        data := serialize_metadata tv ev.metadata
        tags := match tv (onEventCapture ev).2 with
                | .ok v => v
                | .error _ => .obj [] }) ∧
    (onEventTasks ev).length = 1 ∧
    (∀ e, tv (onEventCapture ev).2 = .error e → (onEventRecord tv a ev).tags = .obj []) ∧
    (∀ e, tv (metadataEntries ev.metadata) = .error e →
      (onEventRecord tv a ev).data = .null) := by
  refine ⟨rfl, rfl, ?_, ?_⟩
  · intro e he
    simp [onEventRecord, he]
  · intro e he
    simp [onEventRecord, serialize_metadata, onEventCapture, he]

/-- Witness for C10: a serializer oracle that always fails; the record is
still produced, with `tags = {}` and `data = null`. -/
theorem dispatch_record_always_produced_witness :
    (onEventRecord (fun _ => .error ())
      { service_name := "svc", environment := "dev", service_type := "service",
        session_id := "sid", logs_endpoint := "http://mock/logs", init_endpoint := "" }
      { metadata := { name := "e", target := "t", level := .info,
                      file := none, line := none },
        fields := [("k", .str "v")] }).tags = .obj [] ∧
    (onEventRecord (fun _ => .error ())
      { service_name := "svc", environment := "dev", service_type := "service",
        session_id := "sid", logs_endpoint := "http://mock/logs", init_endpoint := "" }
      { metadata := { name := "e", target := "t", level := .info,
                      file := none, line := none },
        fields := [("k", .str "v")] }).data = .null ∧
    (onEventTasks
      { metadata := { name := "e", target := "t", level := .info,
                      file := none, line := none },
        fields := [("k", (.str "v" : FieldValue))] }).length = 1 := by
  have h := dispatch_record_always_produced (fun _ => .error ())
    { service_name := "svc", environment := "dev", service_type := "service",
      session_id := "sid", logs_endpoint := "http://mock/logs", init_endpoint := "" }
    { metadata := { name := "e", target := "t", level := .info,
                    file := none, line := none },
      fields := [("k", .str "v")] }
  exact ⟨h.2.2.1 () rfl, h.2.2.2 () rfl, h.2.1⟩

/-! ## Claims about the dispatch concurrency discipline (C4, C5) -/

/-- The inductive invariant of the dispatch transition system: the mutex
holder is exactly the task whose submission is in flight; every submission
in the history was made by a task that is now done and carried exactly
that task's record; every done task's submission is in the history; and no
task appears twice in the history. -/
theorem dispatch_reachable_inv (n : Nat) (records : Fin n → LogRequest)
    (s : DispatchState n) (h : DispatchReachable n records s) :
    (∀ i, s.pc i = .locked ↔ s.holder = some i) ∧
    (∀ p ∈ s.history, p.2 = records p.1 ∧ s.pc p.1 = .done) ∧
    (∀ i, s.pc i = .done → (i, records i) ∈ s.history) ∧
    (s.history.map Prod.fst).Nodup := by
  induction h with
  | refl =>
    refine ⟨fun i => ?_, by simp [DispatchState.init], by simp [DispatchState.init],
      by simp [DispatchState.init]⟩
    simp [DispatchState.init]
  | tail _ hstep ih =>
    obtain ⟨ih1, ih2, ih3, ih4⟩ := ih
    cases hstep with
    | acquire i hpc hfree =>
      rename DispatchState n => b
      refine ⟨fun j => ?_, fun p hp => ?_, fun j hj => ?_, ih4⟩
      · by_cases hj : j = i
        · subst hj
          simp [Function.update]
        · simp only [Function.update, dif_neg hj]
          rw [ih1 j, hfree]
          exact iff_of_false (fun hh => by cases hh)
            (fun hh => hj (Option.some.inj hh).symm)
      · obtain ⟨he, hd⟩ := ih2 p hp
        refine ⟨he, ?_⟩
        have hne : p.1 ≠ i := fun hh => by rw [hh, hpc] at hd; cases hd
        simpa [Function.update, dif_neg hne] using hd
      · by_cases hij : j = i
        · subst hij
          simp [Function.update] at hj
        · simp only [Function.update, dif_neg hij] at hj
          exact ih3 j hj
    | submitRelease i hpc hold =>
      rename DispatchState n => b
      have hnotin : ∀ r, (i, r) ∉ b.history := by
        intro r hmem
        have hd := (ih2 (i, r) hmem).2
        rw [hpc] at hd
        cases hd
      refine ⟨fun j => ?_, fun p hp => ?_, fun j hj => ?_, ?_⟩
      · by_cases hj : j = i
        · subst hj
          simp [Function.update]
        · simp only [Function.update, dif_neg hj]
          refine iff_of_false (fun hl => ?_) (fun hh => by cases hh)
          have hh := (ih1 j).1 hl
          rw [hold] at hh
          exact hj (Option.some.inj hh).symm
      · simp only [List.mem_append, List.mem_singleton] at hp
        rcases hp with hp | hp
        · obtain ⟨he, hd⟩ := ih2 p hp
          have hne : p.1 ≠ i := by
            intro hh
            apply hnotin p.2
            have hpe : p = (i, p.2) := by rw [← hh]
            rwa [← hpe]
          refine ⟨he, ?_⟩
          simpa [Function.update, dif_neg hne] using hd
        · subst hp
          exact ⟨rfl, by simp [Function.update]⟩
      · by_cases hij : j = i
        · subst hij
          simp
        · simp only [Function.update, dif_neg hij] at hj
          exact List.mem_append_left _ (ih3 j hj)
      · simp only [List.map_append, List.map_cons, List.map_nil]
        rw [List.nodup_append]
        refine ⟨ih4, List.nodup_singleton _, fun x hx hx2 => ?_⟩
        simp only [List.mem_singleton] at hx2
        subst hx2
        obtain ⟨p, hp, hfst⟩ := List.mem_map.1 hx
        have hd := (ih2 p hp).2
        rw [hfst, hpc] at hd
        cases hd

/-- **C4.** All access to the shared appender by dispatch tasks is
serialized behind the single `tokio::sync::Mutex`: the lock is acquired
before the record is built and held until the task ends, i.e. for the
duration of its one `log` submission (this is how `DispatchStep` renders
the task body of `on_event`), and consequently in every reachable state at
most one task has its HTTP submission in flight against the shared client
object. -/
theorem at_most_one_inflight_submission (n : Nat) (records : Fin n → LogRequest)
    (s : DispatchState n) (h : DispatchReachable n records s)
    (i j : Fin n) (hi : s.pc i = .locked) (hj : s.pc j = .locked) : i = j := by
  obtain ⟨h1, _, _, _⟩ := dispatch_reachable_inv n records s h
  have hhi := (h1 i).1 hi
  have hhj := (h1 j).1 hj
  rw [hhi] at hhj
  exact Option.some.inj hhj

/-- Witness for C4: with two spawned tasks, after task 0 acquires the
lock, the state is reachable, task 0 is the in-flight task, and the
theorem instantiates to `0 = 0`. -/
theorem at_most_one_inflight_submission_witness :
    DispatchReachable 2
      (fun _ => { service := "svc", environment := "dev", severity := "INFO",
                  type := "service", log := "rust tracing log captured",
                  data := .null, tags := .obj [] })
      { pc := Function.update (DispatchState.init 2).pc 0 .locked,
        holder := some 0, history := [] } ∧
    (Function.update (DispatchState.init 2).pc 0 .locked) 0 = .locked ∧
    (0 : Fin 2) = 0 := by
  have hreach : DispatchReachable 2
      (fun _ => { service := "svc", environment := "dev", severity := "INFO",
                  type := "service", log := "rust tracing log captured",
                  data := .null, tags := .obj [] })
      { pc := Function.update (DispatchState.init 2).pc 0 .locked,
        holder := some 0, history := [] } :=
    Relation.ReflTransGen.single (DispatchStep.acquire (DispatchState.init 2) 0 rfl rfl)
  have hpc : (Function.update (DispatchState.init 2).pc 0 .locked) 0 = .locked := by
    simp [Function.update]
  exact ⟨hreach, hpc,
    at_most_one_inflight_submission 2 _ _ hreach 0 0 hpc hpc⟩

/-- **C5.** Each captured event's field mapping and metadata are captured
synchronously (`onEventCapture` is what the calling thread snapshots
before `tokio::spawn`), exactly one dispatch task is scheduled per event
(`onEventTasks`), and the task's submission is `onEventRecord` of exactly
that captured data; hence when all N dispatch tasks have run, the history
of submissions made against the logs endpoint is a permutation of one
submission per event — no duplication and no loss. -/
theorem each_event_submitted_exactly_once (n : Nat)
    (tv : List (String × Json) → Except Unit Json) (a : PogrAppender)
    (events : Fin n → CapturedEvent) (s : DispatchState n)
    (h : DispatchReachable n (fun i => onEventRecord tv a (events i)) s)
    (hdone : ∀ i, s.pc i = .done) :
    s.history.Perm
      ((List.finRange n).map fun i => (i, onEventRecord tv a (events i))) ∧
    (∀ ev, (onEventTasks ev).length = 1) := by
  obtain ⟨h1, h2, h3, h4⟩ := dispatch_reachable_inv n
    (fun i => onEventRecord tv a (events i)) s h
  refine ⟨?_, fun _ => rfl⟩
  have hperm : (s.history.map Prod.fst).Perm (List.finRange n) := by
    refine (List.perm_ext_iff_of_nodup h4 (List.nodup_finRange n)).2 fun x => ?_
    simp only [List.mem_finRange, iff_true]
    exact List.mem_map_of_mem Prod.fst (h3 x (hdone x))
  have e1 : (s.history.map Prod.fst).map
      (fun i => (i, onEventRecord tv a (events i))) = s.history := by
    rw [List.map_map]
    have : ∀ p ∈ s.history,
        ((fun i => (i, onEventRecord tv a (events i))) ∘ Prod.fst) p = id p := by
      intro p hp
      have he := (h2 p hp).1
      simp only [Function.comp, id]
      rw [← he]
    rw [List.map_congr_left this, List.map_id]
  have := hperm.map (fun i => (i, onEventRecord tv a (events i)))
  rwa [e1] at this

/-- Witness for C5: one event, one task; after acquire and
submit-release the state is final and the history is exactly the one
submission of that event's record. -/
theorem each_event_submitted_exactly_once_witness :
    (({ pc := Function.update
          (Function.update (DispatchState.init 1).pc 0 .locked) 0 .done,
        holder := none,
        history := [] ++ [((0 : Fin 1),
          onEventRecord serdeToValue
            { service_name := "svc", environment := "dev", service_type := "service",
              session_id := "sid", logs_endpoint := "http://mock/logs",
              init_endpoint := "" }
            { metadata := { name := "e", target := "t", level := .info,
                            file := none, line := none },
              fields := [] })] } : DispatchState 1).history).Perm
      ((List.finRange 1).map fun i => (i,
        onEventRecord serdeToValue
          { service_name := "svc", environment := "dev", service_type := "service",
            session_id := "sid", logs_endpoint := "http://mock/logs",
            init_endpoint := "" }
          { metadata := { name := "e", target := "t", level := .info,
                          file := none, line := none },
            fields := [] })) := by
  refine (each_event_submitted_exactly_once 1 serdeToValue
    { service_name := "svc", environment := "dev", service_type := "service",
      session_id := "sid", logs_endpoint := "http://mock/logs", init_endpoint := "" }
    (fun _ => { metadata := { name := "e", target := "t", level := .info,
                              file := none, line := none },
                fields := [] })
    _ ?_ ?_).1
  · exact Relation.ReflTransGen.tail
      (Relation.ReflTransGen.single (DispatchStep.acquire (DispatchState.init 1) 0 rfl rfl))
      (DispatchStep.submitRelease _ 0 (by simp [Function.update]) rfl)
  · intro i
    have h0 : i = 0 := Fin.fin_one_eq_zero i
    subst h0
    simp [Function.update]

/-! ## Round-trip machinery for C8: decimal digits -/

theorem digitVal_digitChar (n : Nat) (h : n < 10) : digitVal (digitChar n) = n := by
  interval_cases n <;> decide

theorem isDigit_digitChar (n : Nat) (h : n < 10) : isDigit (digitChar n) = true := by
  interval_cases n <;> decide

theorem natDigits_all_digits (n : Nat) : ∀ c ∈ natDigits n, isDigit c = true := by
  induction n using Nat.strong_induction_on with
  | _ n ih =>
    rw [natDigits]
    split
    · next h =>
      intro c hc
      simp only [List.mem_singleton] at hc
      subst hc
      exact isDigit_digitChar n h
    · next h =>
      intro c hc
      simp only [List.mem_append, List.mem_singleton] at hc
      rcases hc with hc | hc
      · exact ih (n / 10) (Nat.div_lt_self (by omega) (by omega)) c hc
      · subst hc
        exact isDigit_digitChar (n % 10) (Nat.mod_lt _ (by omega))

theorem natDigits_ne_nil (n : Nat) : natDigits n ≠ [] := by
  rw [natDigits]
  split <;> simp

theorem digitsToNat_append_singleton (ds : List Char) (c : Char) :
    digitsToNat (ds ++ [c]) = digitsToNat ds * 10 + digitVal c := by
  simp [digitsToNat, List.foldl_append]

theorem digitsToNat_natDigits (n : Nat) : digitsToNat (natDigits n) = n := by
  induction n using Nat.strong_induction_on with
  | _ n ih =>
    rw [natDigits]
    split
    · next h =>
      simp [digitsToNat, digitVal_digitChar n h]
    · next h =>
      rw [digitsToNat_append_singleton,
        ih (n / 10) (Nat.div_lt_self (by omega) (by omega)),
        digitVal_digitChar (n % 10) (Nat.mod_lt _ (by omega))]
      omega

theorem spanDigits_append (ds rest : List Char) (hds : ∀ c ∈ ds, isDigit c = true)
    (hrest : ∀ c, rest.head? = some c → isDigit c = false) :
    spanDigits (ds ++ rest) = (ds, rest) := by
  induction ds with
  | nil =>
    cases rest with
    | nil => rfl
    | cons c cs =>
      have hc := hrest c rfl
      simp [spanDigits, hc]
  | cons c cs ih =>
    have hc := hds c (by simp)
    simp only [List.cons_append, spanDigits, hc, if_true, List.append_eq,
      ih (fun x hx => hds x (List.mem_cons_of_mem c hx))]

theorem fracDigits_all_digits (d : Nat) : ∀ (r : Nat), ∀ c ∈ fracDigits r d, isDigit c = true := by
  induction d with
  | zero => simp [fracDigits]
  | succ d ih =>
    intro r c hc
    simp only [fracDigits, List.mem_append, List.mem_singleton] at hc
    rcases hc with hc | hc
    · exact ih (r / 10) c hc
    · subst hc
      exact isDigit_digitChar (r % 10) (Nat.mod_lt _ (by omega))

theorem fracDigits_length (d : Nat) : ∀ (r : Nat), (fracDigits r d).length = d := by
  induction d with
  | zero => intro r; rfl
  | succ d ih => intro r; simp [fracDigits, ih]

theorem digitsToNat_fracDigits (d : Nat) : ∀ (r : Nat), r < 10 ^ d →
    digitsToNat (fracDigits r d) = r := by
  induction d with
  | zero =>
    intro r h
    rw [pow_zero] at h
    interval_cases r
    rfl
  | succ d ih =>
    intro r h
    rw [pow_succ] at h
    rw [fracDigits, digitsToNat_append_singleton,
      ih (r / 10) (Nat.div_lt_of_lt_mul (Nat.mul_comm (10 ^ d) 10 ▸ h)),
      digitVal_digitChar (r % 10) (Nat.mod_lt _ (by omega))]
    omega

/-! ## Round-trip machinery for C8: numbers -/

theorem head?_mem {l : List Char} {a : Char} (h : l.head? = some a) : a ∈ l := by
  cases l with
  | nil => cases h
  | cons x xs =>
    rw [List.head?_cons] at h
    cases h
    exact List.mem_cons_self _ _

theorem spanDigits_all (ds : List Char) (hds : ∀ c ∈ ds, isDigit c = true) :
    spanDigits ds = (ds, []) := by
  have h := spanDigits_append ds [] hds (by intro x hx; cases hx)
  simpa using h

theorem parseNumber_natDigits (n : Nat) :
    parseNumber (natDigits n) = some (.posInt n, []) := by
  obtain ⟨c, cs, hcons⟩ : ∃ c cs, natDigits n = c :: cs := by
    cases h : natDigits n with
    | nil => exact absurd h (natDigits_ne_nil n)
    | cons c cs => exact ⟨c, cs, rfl⟩
  have hc : isDigit c = true := natDigits_all_digits n c (by rw [hcons]; simp)
  have hcne : c ≠ '-' := by
    intro hh
    subst hh
    simp [isDigit] at hc
  have hspan : spanDigits (c :: cs) = (c :: cs, []) := by
    rw [← hcons]
    exact spanDigits_all _ (natDigits_all_digits n)
  have hval : digitsToNat (c :: cs) = n := by
    rw [← hcons]
    exact digitsToNat_natDigits n
  rw [hcons]
  simp [parseNumber, decide_eq_false hcne, hspan, hval]

theorem parseNumber_neg_natDigits (m : Nat) (hm : m ≠ 0) :
    parseNumber ('-' :: natDigits m) = some (.negInt (-(m : Int)), []) := by
  have hspan : spanDigits (natDigits m) = (natDigits m, []) :=
    spanDigits_all _ (natDigits_all_digits m)
  have hne : natDigits m ≠ [] := natDigits_ne_nil m
  simp [parseNumber, hspan, hne, digitsToNat_natDigits, hm]

theorem normFloat_mul10 (u : Int) : normFloat (u * 10) 1 = .float u 0 := by
  have h1 : u * 10 % 10 = 0 := Int.mul_emod_left u 10
  have h2 : u * 10 / 10 = u := Int.mul_ediv_cancel u (by norm_num)
  simp [normFloat, h1, h2]

theorem normFloat_no_strip (u : Int) (d : Nat) (hd : d ≠ 0) (hu : u % 10 ≠ 0) :
    normFloat u d = .float u d := by
  cases d with
  | zero => exact absurd rfl hd
  | succ k => simp [normFloat, hu]

theorem parseNumber_renderFloat (u : Int) (d : Nat) (hnorm : JNumber.floatNormal u d) :
    parseNumber (renderNumber (.float u d)) = some (.float u d, []) := by
  have hq : ∀ c ∈ natDigits (u.natAbs / 10 ^ d), isDigit c = true :=
    natDigits_all_digits _
  set fracPart := (if d = 0 then ['0'] else fracDigits (u.natAbs % 10 ^ d) d) with hfrac
  have hfd : ∀ c ∈ fracPart, isDigit c = true := by
    rw [hfrac]
    split
    · intro c hc
      simp only [List.mem_singleton] at hc
      subst hc
      decide
    · exact fracDigits_all_digits d _
  have hfne : fracPart ≠ [] := by
    rw [hfrac]
    split
    · simp
    · next hd0 =>
      intro hh
      have hl := fracDigits_length d (u.natAbs % 10 ^ d)
      rw [hh] at hl
      simp at hl
      exact hd0 hl.symm
  have hspan1 : spanDigits (natDigits (u.natAbs / 10 ^ d) ++ '.' :: fracPart)
      = (natDigits (u.natAbs / 10 ^ d), '.' :: fracPart) := by
    refine spanDigits_append _ _ hq ?_
    intro x hx
    rw [List.head?_cons] at hx
    cases hx
    decide
  have hspan2 : spanDigits fracPart = (fracPart, []) := spanDigits_all _ hfd
  have hvalfrac : digitsToNat fracPart = if d = 0 then 0 else u.natAbs % 10 ^ d := by
    rw [hfrac]
    split
    · rfl
    · exact digitsToNat_fracDigits d _ (Nat.mod_lt _ (pow_pos (by omega) d))
  have hlen : fracPart.length = if d = 0 then 1 else d := by
    rw [hfrac]
    split
    · rfl
    · exact fracDigits_length d _
  have hsplit : ((u.natAbs / 10 ^ d : Nat) : Int) * (10 : Int) ^ d
      + ((u.natAbs % 10 ^ d : Nat) : Int) = (u.natAbs : Int) := by
    have hnat : u.natAbs / 10 ^ d * 10 ^ d + u.natAbs % 10 ^ d = u.natAbs := by
      rw [Nat.mul_comm]
      exact Nat.div_add_mod u.natAbs (10 ^ d)
    exact_mod_cast congrArg (fun n : Nat => (n : Int)) hnat
  rcases lt_or_ge u 0 with hu | hu
  · have hrender : renderNumber (.float u d)
        = '-' :: (natDigits (u.natAbs / 10 ^ d) ++ '.' :: fracPart) := by
      simp [renderNumber, hu, hfrac]
    rw [hrender]
    simp only [parseNumber, List.tail_cons, decide_True, if_true, hspan1, hspan2,
      digitsToNat_natDigits, hvalfrac, hlen, natDigits_ne_nil, hfne]
    by_cases hd0 : d = 0
    · subst hd0
      simp only [if_true, pow_zero, Nat.div_one, if_pos rfl]
      have key : (-1 : Int) * (↑u.natAbs * (10 : Int) ^ (1 : Nat) + ↑(0 : Nat)) = u * 10 := by
        rw [pow_one]
        omega
      rw [key, normFloat_mul10]
      simp
    · simp only [if_neg hd0]
      have key : (-1 : Int) * (↑(u.natAbs / 10 ^ d) * (10 : Int) ^ d
          + ↑(u.natAbs % 10 ^ d)) = u := by
        rw [hsplit]
        omega
      rw [key, normFloat_no_strip u d hd0 (hnorm.resolve_left hd0)]
      simp
  · obtain ⟨c, cs, hcons⟩ : ∃ c cs, natDigits (u.natAbs / 10 ^ d) = c :: cs := by
      cases h : natDigits (u.natAbs / 10 ^ d) with
      | nil => exact absurd h (natDigits_ne_nil _)
      | cons c cs => exact ⟨c, cs, rfl⟩
    have hc : isDigit c = true := hq c (by rw [hcons]; simp)
    have hcne : c ≠ '-' := by
      intro hh
      subst hh
      simp [isDigit] at hc
    have hrender : renderNumber (.float u d)
        = c :: (cs ++ '.' :: fracPart) := by
      simp only [renderNumber, if_neg (not_lt.mpr hu), hfrac, List.nil_append, hcons,
        List.cons_append]
    rw [hrender]
    rw [hcons] at hspan1
    simp only [List.cons_append] at hspan1
    have hvq : digitsToNat (c :: cs) = u.natAbs / 10 ^ d := by
      rw [← hcons]
      exact digitsToNat_natDigits _
    simp only [parseNumber, decide_eq_false hcne, Bool.false_eq_true, if_false,
      hspan1, hspan2, hvalfrac, hlen, hfne]
    by_cases hd0 : d = 0
    · subst hd0
      simp only [if_true, pow_zero, Nat.div_one, if_pos rfl]
      have key : (1 : Int) * (↑(digitsToNat (c :: cs)) * (10 : Int) ^ (1 : Nat)
          + ↑(0 : Nat)) = u * 10 := by
        rw [hvq, pow_zero, Nat.div_one, pow_one]
        omega
      rw [key, normFloat_mul10]
      simp
    · simp only [if_neg hd0]
      have key : (1 : Int) * (↑(digitsToNat (c :: cs)) * (10 : Int) ^ d
          + ↑(u.natAbs % 10 ^ d)) = u := by
        rw [hvq, hsplit]
        omega
      rw [key, normFloat_no_strip u d hd0 (hnorm.resolve_left hd0)]
      simp

theorem renderNumber_head (x : JNumber) :
    ∃ c cs, renderNumber x = c :: cs ∧ (c = '-' ∨ isDigit c = true) := by
  cases x with
  | posInt n =>
    obtain ⟨c, cs, h⟩ : ∃ c cs, natDigits n = c :: cs := by
      cases h : natDigits n with
      | nil => exact absurd h (natDigits_ne_nil n)
      | cons c cs => exact ⟨c, cs, rfl⟩
    exact ⟨c, cs, h, Or.inr (natDigits_all_digits n c (by rw [h]; simp))⟩
  | negInt i => exact ⟨'-', natDigits i.natAbs, rfl, Or.inl rfl⟩
  | float u d =>
    by_cases hu : u < 0
    · refine ⟨'-', natDigits (u.natAbs / 10 ^ d) ++ '.' ::
        (if d = 0 then ['0'] else fracDigits (u.natAbs % 10 ^ d) d), ?_, Or.inl rfl⟩
      simp [renderNumber, hu]
    · obtain ⟨c, cs, h⟩ : ∃ c cs, natDigits (u.natAbs / 10 ^ d) = c :: cs := by
        cases h : natDigits (u.natAbs / 10 ^ d) with
        | nil => exact absurd h (natDigits_ne_nil _)
        | cons c cs => exact ⟨c, cs, rfl⟩
      refine ⟨c, cs ++ '.' ::
        (if d = 0 then ['0'] else fracDigits (u.natAbs % 10 ^ d) d), ?_,
        Or.inr (natDigits_all_digits _ c (by rw [h]; simp))⟩
      simp [renderNumber, hu, h]

theorem parseJsonScalar_renderNumber (x : JNumber)
    (hneg : ∀ i, x = .negInt i → i < 0)
    (hflo : ∀ u d, x = .float u d → JNumber.floatNormal u d) :
    parseJsonScalar (renderJson (.num x)) = some (.num x, []) := by
  obtain ⟨c, cs, hcons, hd⟩ := renderNumber_head x
  have hn : c ≠ 'n' := by
    rintro rfl
    rcases hd with h | h
    exacts [absurd h (by decide), absurd h (by decide)]
  have ht : c ≠ 't' := by
    rintro rfl
    rcases hd with h | h
    exacts [absurd h (by decide), absurd h (by decide)]
  have hf : c ≠ 'f' := by
    rintro rfl
    rcases hd with h | h
    exacts [absurd h (by decide), absurd h (by decide)]
  have hquote : c ≠ '"' := by
    rintro rfl
    rcases hd with h | h
    exacts [absurd h (by decide), absurd h (by decide)]
  have hparse : parseNumber (renderNumber x) = some (x, []) := by
    cases x with
    | posInt n => exact parseNumber_natDigits n
    | negInt i =>
      have hi := hneg i rfl
      have hia : i.natAbs ≠ 0 := by omega
      have h := parseNumber_neg_natDigits i.natAbs hia
      have hval : (-(i.natAbs : Int)) = i := by omega
      rw [show renderNumber (.negInt i) = '-' :: natDigits i.natAbs from rfl, h, hval]
    | float u d => exact parseNumber_renderFloat u d (hflo u d rfl)
  have hrj : renderJson (.num x) = renderNumber x := by
    simp [renderJson]
  rw [hrj, hcons]
  rw [hcons] at hparse
  simp [parseJsonScalar, hn, ht, hf, hquote, hparse]

/-! ## Round-trip machinery for C8: strings -/

theorem hexVal_hexDigit (m : Nat) (h : m < 16) : hexVal (hexDigit m) = some m := by
  interval_cases m <;> decide

theorem parseStringBody_escapeList (s rest : List Char) :
    parseStringBody (escapeList s ++ '"' :: rest) = some (s, rest) := by
  induction s with
  | nil =>
    rw [show escapeList [] ++ '"' :: rest = '"' :: rest from rfl,
      parseStringBody.eq_def]
    simp
  | cons c cs ih =>
    simp only [escapeList, List.append_assoc]
    by_cases h1 : c = '"'
    · subst h1
      rw [show escapeChar '"' = ['\\', '"'] from rfl]
      rw [List.cons_append, List.cons_append, parseStringBody.eq_def]
      simp [ih]
    · by_cases h2 : c = '\\'
      · subst h2
        rw [show escapeChar '\\' = ['\\', '\\'] from rfl]
        rw [List.cons_append, List.cons_append, parseStringBody.eq_def]
        simp [ih]
      · by_cases h3 : c = '\x08'
        · subst h3
          rw [show escapeChar '\x08' = ['\\', 'b'] from rfl]
          rw [List.cons_append, List.cons_append, parseStringBody.eq_def]
          simp [ih]
        · by_cases h4 : c = '\x09'
          · subst h4
            rw [show escapeChar '\x09' = ['\\', 't'] from rfl]
            rw [List.cons_append, List.cons_append, parseStringBody.eq_def]
            simp [ih]
          · by_cases h5 : c = '\x0a'
            · subst h5
              rw [show escapeChar '\x0a' = ['\\', 'n'] from rfl]
              rw [List.cons_append, List.cons_append, parseStringBody.eq_def]
              simp [ih]
            · by_cases h6 : c = '\x0c'
              · subst h6
                rw [show escapeChar '\x0c' = ['\\', 'f'] from rfl]
                rw [List.cons_append, List.cons_append, parseStringBody.eq_def]
                simp [ih]
              · by_cases h7 : c = '\x0d'
                · subst h7
                  rw [show escapeChar '\x0d' = ['\\', 'r'] from rfl]
                  rw [List.cons_append, List.cons_append, parseStringBody.eq_def]
                  simp [ih]
                · by_cases h8 : c.toNat < 32
                  · have e0 : hexVal '0' = some 0 := by decide
                    have e1 : hexVal (hexDigit (c.toNat / 16)) = some (c.toNat / 16) :=
                      hexVal_hexDigit _ (by omega)
                    have e2 : hexVal (hexDigit (c.toNat % 16)) = some (c.toNat % 16) :=
                      hexVal_hexDigit _ (by omega)
                    rw [show escapeChar c = ['\\', 'u', '0', '0',
                        hexDigit (c.toNat / 16), hexDigit (c.toNat % 16)] from by
                      simp [escapeChar, h1, h2, h3, h4, h5, h6, h7, h8]]
                    simp only [List.cons_append, List.nil_append]
                    rw [parseStringBody.eq_def]
                    simp [e0, e1, e2, ih]
                    rw [show c.toNat / 16 * 16 + c.toNat % 16 = c.toNat by omega,
                      Char.ofNat_toNat]
                  · rw [show escapeChar c = [c] from by
                      simp [escapeChar, h1, h2, h3, h4, h5, h6, h7, h8]]
                    rw [List.cons_append, List.nil_append, parseStringBody.eq_def]
                    simp [h1, h2, h8, ih]

theorem parseJsonScalar_renderString (s : String) :
    parseJsonScalar (renderJson (.str s)) = some (.str s, []) := by
  have hrj : renderJson (.str s) = '"' :: (escapeList s.data ++ ['"']) := by
    simp [renderJson, renderString]
  rw [hrj]
  have h := parseStringBody_escapeList s.data []
  simp [parseJsonScalar, h]

/-- **C8.** For every primitive field kind and every value of that kind,
the JSON value the visitor stores, when rendered to JSON text and
re-parsed, is recovered exactly: a full value round-trip for signed
integers, unsigned integers, finite floats (in canonical scaled-decimal
representation; a non-finite float is stored as null, which also
round-trips), booleans and strings, and a string round-trip of the
display/debug string for the error and debug kinds. -/
theorem stored_field_values_roundtrip (fv : FieldValue)
    (hnorm : ∀ u d, fv = .f64 u d → JNumber.floatNormal u d) :
    parseJsonScalar (renderJson fv.serialize) = some (fv.serialize, []) := by
  cases fv with
  | i64 i =>
    by_cases hi : 0 ≤ i
    · simp only [FieldValue.serialize, if_pos hi]
      exact parseJsonScalar_renderNumber (.posInt i.toNat)
        (by intro j h; cases h) (by intro u d h; cases h)
    · simp only [FieldValue.serialize, if_neg hi]
      exact parseJsonScalar_renderNumber (.negInt i)
        (by intro j h; cases h; omega) (by intro u d h; cases h)
  | u64 n =>
    exact parseJsonScalar_renderNumber (.posInt n)
      (by intro j h; cases h) (by intro u d h; cases h)
  | f64nonfinite =>
    rw [show FieldValue.serialize .f64nonfinite = .null from rfl]
    rw [show renderJson .null = ['n', 'u', 'l', 'l'] from by simp [renderJson]]
    rfl
  | f64 u d =>
    exact parseJsonScalar_renderNumber (.float u d)
      (by intro j h; cases h)
      (by intro u2 d2 h; cases h; exact hnorm u d rfl)
  | bool b =>
    cases b with
    | true =>
      rw [show FieldValue.serialize (.bool true) = .bool true from rfl]
      rw [show renderJson (.bool true) = ['t', 'r', 'u', 'e'] from by simp [renderJson]]
      rfl
    | false =>
      rw [show FieldValue.serialize (.bool false) = .bool false from rfl]
      rw [show renderJson (.bool false) = ['f', 'a', 'l', 's', 'e'] from by
        simp [renderJson]]
      rfl
  | str s => exact parseJsonScalar_renderString s
  | error s => exact parseJsonScalar_renderString s
  | debug s => exact parseJsonScalar_renderString s

/-- Witness for C8 at the finite float `-1.5` (stored as the canonical
scaled decimal `-15 / 10 ^ 1`), whose normality hypothesis is discharged
by computation. -/
theorem stored_field_values_roundtrip_witness :
    parseJsonScalar (renderJson (FieldValue.f64 (-15) 1).serialize)
      = some ((FieldValue.f64 (-15) 1).serialize, []) :=
  stored_field_values_roundtrip (.f64 (-15) 1)
    (by intro u d h; cases h; exact Or.inr (by decide))
